import Mathlib

/-!
Verification of the graph-delta DOT chunk editor.

This file shallowly embeds the core of the `graph-delta` crate:

* `GraphDelta` — the chunk data model, attribute formatting, `Chunk.to_dot`
  and the nested serializer from `src/crates/graph-delta/src/dot_chunks/parser.rs`,
  plus an executable DOT parser.  The pest grammar file `dot.pest` is not part
  of the sources, so the grammar itself is modelled from the specification
  (section 4.1); the chunk-extraction behaviour follows the `walk` function of
  the source.
* `Commands` — the JSON command layer from
  `src/crates/graph-delta/src/commands.rs` (chunks there carry attributes as an
  optional raw string).
* `Dsl` — the DSL interpreter from
  `src/crates/graph-delta/src/dsl/interpreter.rs` and its AST.

Attribute maps (`HashMap<String, String>` in Rust) are modelled as association
lists with unique keys, where `insert` overwrites in place and otherwise
appends; iteration order of the model is the insertion order.  Rust
`char::is_alphanumeric` is modelled by `Char.isAlphanum` (they agree on ASCII,
which covers every input considered here).
-/

namespace GraphDelta

/-- Association-list model of `HashMap<String, String>`:
`insert` overwrites the value of an existing key in place, else appends. -/
def insertA (m : List (String × String)) (k v : String) : List (String × String) :=
  match m with
  | [] => [(k, v)]
  | (k', v') :: rest =>
      if k' = k then (k', v) :: rest else (k', v') :: insertA rest k v

/-- Model of `HashMap::get` on the association-list model. -/
def lookupA (m : List (String × String)) (k : String) : Option String :=
  match m with
  | [] => none
  | (k', v') :: rest => if k' = k then some v' else lookupA rest k

/-- Model of `HashMap::remove` (dropping the value) on the association-list model. -/
def eraseA (m : List (String × String)) (k : String) : List (String × String) :=
  match m with
  | [] => []
  | (k', v') :: rest => if k' = k then rest else (k', v') :: eraseA rest k

/-- Model of `HashMap::get_mut` followed by an update of the stored value. -/
def modifyA (m : List (String × String)) (k : String) (f : String → String) :
    List (String × String) :=
  match m with
  | [] => []
  | (k', v') :: rest =>
      if k' = k then (k', f v') :: rest else (k', v') :: modifyA rest k f

/-- Model of `HashMap::extend`: insert every pair of the second map into the first. -/
def extendA (m : List (String × String)) (m' : List (String × String)) :
    List (String × String) :=
  m'.foldl (fun acc kv => insertA acc kv.1 kv.2) m

/-- Split a character list at every occurrence of `c` (the semantics of
Rust `str::split(c)` and of `String.splitOn` for a one-character pattern),
written structurally so it evaluates in the kernel. -/
def splitChar (c : Char) : List Char → List (List Char)
  | [] => [[]]
  | x :: rest =>
      let r := splitChar c rest
      if x = c then [] :: r
      else
        match r with
        | h :: t => (x :: h) :: t
        | [] => [[x]]

/-- Rust `str::split(c)` on strings. -/
def strSplitChar (c : Char) (s : String) : List String :=
  (splitChar c s.toList).map String.mk

/-- The `Chunk` of `dot_chunks/parser.rs`: the unit of parsed DOT structure. -/
structure Chunk where
  kind : String
  id : Option String
  attrs : List (String × String)
  range : Nat × Nat
  extra : Option String
deriving DecidableEq, Repr

/-- Rust `str::replace('"', "\\\"")` for the single-character pattern `"`:
each double quote is replaced by backslash-quote, all else copied. -/
def replaceQuote (cs : List Char) : List Char :=
  match cs with
  | [] => []
  | c :: rest => if c = '"' then '\\' :: '"' :: replaceQuote rest
                 else c :: replaceQuote rest

/-- Rust string helpers used by the formatter. -/
def strStartsWith (s : String) (c : Char) : Bool :=
  match s.toList with
  | [] => false
  | c' :: _ => c' = c

def strEndsWith (s : String) (c : Char) : Bool :=
  match s.toList.reverse with
  | [] => false
  | c' :: _ => c' = c

/-- The `format_dot_attributes` rendering of one `k, v` pair
(the closure body inside `format_dot_attributes`). -/
def formatAttrPair (k v : String) : String :=
  if strStartsWith v '<' && strEndsWith v '>' then
    k ++ "=" ++ v
  else if (v.toList.any fun c => !c.isAlphanum) || v.toList.isEmpty then
    k ++ "=\"" ++ String.mk (replaceQuote v.toList) ++ "\""
  else
    k ++ "=" ++ v

/-- Source `format_dot_attributes` (dot_chunks/parser.rs lines 39–55): map each pair
through the per-pair formatter and join with `", "`. -/
def format_dot_attributes (attrs : List (String × String)) : String :=
  String.intercalate ", " (attrs.map fun kv => formatAttrPair kv.1 kv.2)

/-- Source `Chunk::to_dot` (dot_chunks/parser.rs lines 67–126). -/
def Chunk.to_dot (c : Chunk) : String :=
  let attrs_str := format_dot_attributes c.attrs
  match c.kind with
  | "node" =>
      let id := c.id.getD "unknown"
      if !c.attrs.isEmpty then "    " ++ id ++ " [" ++ attrs_str ++ "];"
      else "    " ++ id ++ ";"
  | "bare_node" =>
      let id := c.id.getD "unknown"
      "    " ++ id ++ ";"
  | "edge" =>
      let from_ := c.id.getD "unknown"
      let to_ := c.extra.getD "unknown"
      if !c.attrs.isEmpty then
        "    " ++ from_ ++ " -> " ++ to_ ++ " [" ++ attrs_str ++ "];"
      else
        "    " ++ from_ ++ " -> " ++ to_ ++ ";"
  | "attr_stmt" =>
      let stmt_type := c.id.getD "graph"
      if !c.attrs.isEmpty then "    " ++ stmt_type ++ " [" ++ attrs_str ++ "];"
      else "    " ++ stmt_type ++ ";"
  | "id_eq" =>
      let key := c.id.getD "unknown"
      let value := c.extra.getD "\"\""
      "    " ++ key ++ " = " ++ value ++ ";"
  | "subgraph" =>
      match c.id with
      | some id => "    subgraph " ++ id ++ " \x7b"
      | none => "    subgraph \x7b"
  | "rank" =>
      let rank_type := c.id.getD "same"
      let nodes :=
        String.intercalate "; "
          (strSplitChar ',' ((lookupA c.attrs "nodes").getD "") |>.map
            fun s => "\"" ++ s ++ "\"")
      "    \x7b rank=" ++ rank_type ++ "; " ++ nodes ++ " \x7d"
  | other => "    // Unknown chunk type: " ++ other

/-- Stable insertion of a chunk into a list sorted by start line
(later elements with equal keys go after earlier ones, as in the stable
`sort_by_key`). -/
def insertByStart (c : Chunk) (l : List Chunk) : List Chunk :=
  match l with
  | [] => [c]
  | c' :: rest =>
      if c'.range.1 ≤ c.range.1 then c' :: insertByStart c rest
      else c :: c' :: rest

/-- Stable sort by `range.0`, modelling `sort_by_key(|c| c.range.0)`. -/
def sortByStart (l : List Chunk) : List Chunk :=
  l.foldl (fun acc c => insertByStart c acc) []

/-- One `"    "` per level. -/
def indentStr (n : Nat) : String :=
  String.join (List.replicate n "    ")

/-- The inner `while let` of `chunks_to_dot_nested`: pop every open stack
entry whose end line is before the chunk's start line (and nonzero), emitting
`format!("{}}}}}\n", indent)` — i.e. the indent followed by TWO literal
closing braces — per popped entry.  The list head is the stack top. -/
def popClosed (out : String) (stack : List (String × Nat × Nat)) (start : Nat) :
    String × List (String × Nat × Nat) :=
  match stack with
  | [] => (out, [])
  | (_, _, e) :: rest =>
      if start > e ∧ e ≠ 0 then
        popClosed (out ++ indentStr rest.length ++ "\x7d\x7d\n") rest start
      else
        (out, stack)

/-- Rust `str::trim_start`: drop leading whitespace. -/
def trimStartStr (s : String) : String :=
  String.mk (s.toList.dropWhile fun c => c.isWhitespace)

/-- Body of the main `for chunk in &sorted_chunks` loop. -/
def nestedStep (acc : String × List (String × Nat × Nat)) (c : Chunk) :
    String × List (String × Nat × Nat) :=
  let (out, stack) := popClosed acc.1 acc.2 c.range.1
  let indent := indentStr (stack.length + 1)
  match c.kind with
  | "subgraph" =>
      let id_str := c.id.getD ""
      let attrs_str := format_dot_attributes c.attrs
      let out := out ++ indent ++ "subgraph " ++ id_str ++ " \x7b\n"
      let out :=
        if attrs_str ≠ "" then
          out ++ indent ++ "    graph [" ++ attrs_str ++ "];\n"
        else out
      (out, (id_str, c.range.1, c.range.2) :: stack)
  | "rank" =>
      (out ++ indent ++ c.to_dot ++ "\n", stack)
  | _ =>
      (out ++ indent ++ trimStartStr c.to_dot ++ "\n", stack)

/-- The final `while !subgraph_stack.is_empty()` drain: one pop per entry,
each emitting the indent of the remaining depth and two closing braces. -/
def drainStack (out : String) (stack : List (String × Nat × Nat)) : String :=
  match stack with
  | [] => out
  | _ :: rest => drainStack (out ++ indentStr rest.length ++ "\x7d\x7d\n") rest

/-- Source `chunks_to_dot_nested` (dot_chunks/parser.rs lines 353–404). -/
def chunks_to_dot_nested (chunks : List Chunk) (graph_name : Option String) :
    String :=
  let name := graph_name.getD "G"
  let out := "digraph " ++ name ++ " \x7b\n"
  let sorted := sortByStart chunks
  let (out, stack) := sorted.foldl nestedStep (out, [])
  let out := drainStack out stack
  out ++ "\x7d\n"

/-- Source `chunks_to_complete_dot` (dot_chunks/parser.rs lines 347–351): a direct
wrapper around `chunks_to_dot_nested`. -/
def chunks_to_complete_dot (chunks : List Chunk) (graph_name : Option String) :
    String :=
  chunks_to_dot_nested chunks graph_name

inductive TokTag where
  | lbrace | rbrace | lbrack | rbrack | semi | comma | eqSign | colon | arrow
  | ident
deriving DecidableEq, Repr

/-- A lexical token with its raw source text and character span. -/
structure Tok where
  tag : TokTag
  raw : String
  start : Nat
  stop : Nat
deriving DecidableEq, Repr

/-- Bare identifier characters of the DOT subset (bare ids, numbers). -/
def isIdentChar (c : Char) : Bool :=
  c.isAlphanum || c = '_' || c = '.'

/-- Scan a quoted identifier after the opening quote; `\`-escapes skip the
next character.  Returns the count of characters consumed, including the
closing quote. -/
def readQuoted : Nat → List Char → Except String Nat
  | 0, _ => .error "lexer fuel exhausted"
  | _, [] => .error "unterminated quoted identifier"
  | fuel + 1, c :: rest =>
      if c = '"' then .ok 1
      else if c = '\\' then
        match rest with
        | [] => .error "unterminated escape"
        | _ :: rest2 => (readQuoted fuel rest2).map (· + 2)
      else (readQuoted fuel rest).map (· + 1)

/-- Scan an HTML-like identifier after the opening `<` as an opaque
bracket-balanced token.  Returns characters consumed including the final `>`. -/
def readHtml : Nat → List Char → Nat → Except String Nat
  | 0, _, _ => .error "lexer fuel exhausted"
  | _, [], _ => .error "unterminated HTML-like identifier"
  | fuel + 1, c :: rest, depth =>
      if c = '>' then
        if depth = 1 then .ok 1
        else (readHtml fuel rest (depth - 1)).map (· + 1)
      else if c = '<' then (readHtml fuel rest (depth + 1)).map (· + 1)
      else (readHtml fuel rest depth).map (· + 1)

/-- Modelled from the spec: the tokenizer of the `dot.pest` grammar (spec
section 4.1), which is not among the sources.  Identifiers may be bare,
quoted (raw text keeps the quotes) or HTML-like (opaque balanced `<...>`);
punctuation is `{ } [ ] ; , = :` and the edge operators `->` / `--`. -/
def tokenize : Nat → List Char → Nat → Except String (List Tok)
  | 0, _, _ => .error "lexer fuel exhausted"
  | _, [], _ => .ok []
  | fuel + 1, c :: rest, pos =>
      let push (tag : TokTag) (n : Nat) (raw : List Char)
          (k : Except String (List Tok)) : Except String (List Tok) :=
        k.map fun ts => ⟨tag, String.mk raw, pos, pos + n⟩ :: ts
      if c.isWhitespace then tokenize fuel rest (pos + 1)
      else if c = '\x7b' then push .lbrace 1 [c] (tokenize fuel rest (pos + 1))
      else if c = '\x7d' then push .rbrace 1 [c] (tokenize fuel rest (pos + 1))
      else if c = '[' then push .lbrack 1 [c] (tokenize fuel rest (pos + 1))
      else if c = ']' then push .rbrack 1 [c] (tokenize fuel rest (pos + 1))
      else if c = ';' then push .semi 1 [c] (tokenize fuel rest (pos + 1))
      else if c = ',' then push .comma 1 [c] (tokenize fuel rest (pos + 1))
      else if c = '=' then push .eqSign 1 [c] (tokenize fuel rest (pos + 1))
      else if c = ':' then push .colon 1 [c] (tokenize fuel rest (pos + 1))
      else if c = '-' then
        match rest with
        | '>' :: rest2 =>
            push .arrow 2 [c, '>'] (tokenize fuel rest2 (pos + 2))
        | '-' :: rest2 =>
            push .arrow 2 [c, '-'] (tokenize fuel rest2 (pos + 2))
        | _ => .error "isolated dash"
      else if c = '"' then
        match readQuoted fuel rest with
        | .error e => .error e
        | .ok n =>
            push .ident (n + 1) (c :: rest.take n)
              (tokenize fuel (rest.drop n) (pos + n + 1))
      else if c = '<' then
        match readHtml fuel rest 1 with
        | .error e => .error e
        | .ok n =>
            push .ident (n + 1) (c :: rest.take n)
              (tokenize fuel (rest.drop n) (pos + n + 1))
      else if isIdentChar c then
        let n := (rest.takeWhile isIdentChar).length + 1
        push .ident n (c :: rest.takeWhile isIdentChar)
          (tokenize fuel (rest.drop (n - 1)) (pos + n))
      else .error "unexpected character"

/-- 1-based line of a character offset: `span_to_line_range` counts the
newlines in the text before the offset and adds one. -/
def lineOf (src : List Char) (off : Nat) : Nat :=
  ((src.take off).filter fun c => c = '\n').length + 1

/-- Unquote an attribute value as `parse_dot_attributes` does: when the raw
text starts and ends with `"`, strip the quotes and replace every `\"` by
`"`. -/
def unescapeInner : List Char → List Char
  | [] => []
  | '\\' :: '"' :: rest => '"' :: unescapeInner rest
  | c :: rest => c :: unescapeInner rest

def unquoteValue (raw : String) : String :=
  let cs := raw.toList
  if 2 ≤ cs.length ∧ cs.head? = some '"' ∧ cs.getLast? = some '"' then
    String.mk (unescapeInner (cs.drop 1 |>.take (cs.length - 2)))
  else raw

/-- Parse the items of one `a_list` (after `[`), up to and including the
closing `]`.  Pairs go through `HashMap::insert` (last write wins); values
are unquoted.  Returns the attributes, the stop offset of the `]`, and the
remaining tokens. -/
def parseAList : Nat → List Tok → List (String × String) →
    Except String (List (String × String) × Nat × List Tok)
  | 0, _, _ => .error "parser fuel exhausted"
  | _ + 1, ⟨.rbrack, _, _, stop⟩ :: rest, acc => .ok (acc, stop, rest)
  | fuel + 1, ⟨.ident, k, _, _⟩ :: ⟨.eqSign, _, _, _⟩ ::
      ⟨.ident, v, _, _⟩ :: rest, acc =>
      let acc := insertA acc k (unquoteValue v)
      match rest with
      | ⟨.comma, _, _, _⟩ :: rest2 => parseAList fuel rest2 acc
      | ⟨.semi, _, _, _⟩ :: rest2 => parseAList fuel rest2 acc
      | _ => parseAList fuel rest acc
  | _, _, _ => .error "malformed attribute list"

/-- Parse a chained attribute list `[a_list?]([a_list?])*`.  Only the first
bracket group's attributes are kept (the extractor reads just the first
`a_list`); later groups are consumed and discarded.  Returns the kept
attributes, the stop offset of the last `]`, and the rest. -/
def parseAttrListChain : Nat → List Tok → List (String × String) → Nat →
    Except String (List (String × String) × Nat × List Tok)
  | 0, _, _, _ => .error "parser fuel exhausted"
  | fuel + 1, ⟨.lbrack, _, _, _⟩ :: rest, first, _ =>
      match parseAList fuel rest [] with
      | .error e => .error e
      | .ok (_, stop, rest2) =>
          parseAttrListChain fuel rest2 first stop
  | _ + 1, toks, first, stop => .ok (first, stop, toks)

/-- Parse the first bracket group, keep its attributes, then consume any
chained groups. -/
def parseAttrList (fuel : Nat) (toks : List Tok) :
    Except String (List (String × String) × Nat × List Tok) :=
  match fuel, toks with
  | 0, _ => .error "parser fuel exhausted"
  | fuel + 1, ⟨.lbrack, _, _, _⟩ :: rest =>
      match parseAList fuel rest [] with
      | .error e => .error e
      | .ok (attrs, stop, rest2) => parseAttrListChain fuel rest2 attrs stop
  | _, _ => .error "expected attribute list"

/-- A `node_id`: identifier with optional `:port` suffix.  Returns the
identifier's raw text, the full raw text including the port, the start and
stop offsets, and the rest. -/
def parseNodeId (toks : List Tok) :
    Except String (String × String × Nat × Nat × List Tok) :=
  match toks with
  | ⟨.ident, idraw, start, _⟩ :: ⟨.colon, _, _, _⟩ ::
      ⟨.ident, praw, _, pstop⟩ :: rest =>
      .ok (idraw, idraw ++ ":" ++ praw, start, pstop, rest)
  | ⟨.ident, idraw, start, stop⟩ :: rest =>
      .ok (idraw, idraw, start, stop, rest)
  | _ => .error "expected identifier"

/-- An `A -> B -> C` target chain after the source `node_id`: every `->`/`--`
followed by a `node_id`.  Returns the targets (raw text with port), the stop
offset of the last one, and the rest. -/
def parseEdgeTargets : Nat → List Tok → List String → Nat →
    Except String (List String × Nat × List Tok)
  | 0, _, _, _ => .error "parser fuel exhausted"
  | fuel + 1, ⟨.arrow, _, _, _⟩ :: rest, acc, _ =>
      match parseNodeId rest with
      | .error e => .error e
      | .ok (_, full, _, stop, rest2) =>
          parseEdgeTargets fuel rest2 (acc ++ [full]) stop
  | _ + 1, toks, acc, stop => .ok (acc, stop, toks)

/-- Expand an edge chain into chunks exactly as the extractor's `edge_stmt`
arm does: `(from, t1)` then `(t_(i-1), t_i)`, all sharing the same attribute
map and line range. -/
def edgeChainChunks (from_ : String) (targets : List String)
    (attrs : List (String × String)) (range : Nat × Nat) : List Chunk :=
  match targets with
  | [] => []
  | t1 :: rest =>
      let head : Chunk := ⟨"edge", some from_, attrs, range, some t1⟩
      let tail := (List.zip (t1 :: rest) rest).map fun (a, b) =>
        (⟨"edge", some a, attrs, range, some b⟩ : Chunk)
      head :: tail

/-- A node or edge statement starting at a `node_id`: an edge chain when an
edge operator follows, else a node statement whose chunk id drops the port
(the extractor's `node_stmt` arm reads only the inner `ident`). -/
def parseNodeOrEdge (fuel : Nat) (src : List Char) (toks : List Tok) :
    Except String (List Chunk × List Tok) :=
  match parseNodeId toks with
  | .error e => .error e
  | .ok (bare, full, start, stop, rest) =>
      match rest with
      | ⟨.arrow, _, _, _⟩ :: _ =>
          match parseEdgeTargets fuel rest [] stop with
          | .error e => .error e
          | .ok (targets, tstop, rest2) =>
              match rest2 with
              | ⟨.lbrack, _, _, _⟩ :: _ =>
                  match parseAttrList fuel rest2 with
                  | .error e => .error e
                  | .ok (attrs, astop, rest3) =>
                      .ok (edgeChainChunks full targets attrs
                            (lineOf src start, lineOf src astop), rest3)
              | _ =>
                  .ok (edgeChainChunks full targets []
                        (lineOf src start, lineOf src tstop), rest2)
      | ⟨.lbrack, _, _, _⟩ :: _ =>
          match parseAttrList fuel rest with
          | .error e => .error e
          | .ok (attrs, astop, rest2) =>
              .ok ([⟨"node", some bare, attrs,
                     (lineOf src start, lineOf src astop), none⟩], rest2)
      | _ =>
          .ok ([⟨"node", some bare, [],
                 (lineOf src start, lineOf src stop), none⟩], rest)

mutual

/-- Modelled from the spec: one statement of the `dot.pest` grammar (node,
edge, subgraph, `attr_stmt`, `id = value`), emitting chunks the way the
source `walk` does. -/
def parseStmt (fuel : Nat) (src : List Char) (toks : List Tok) :
    Except String (List Chunk × List Tok) :=
  match fuel with
  | 0 => .error "parser fuel exhausted"
  | fuel + 1 =>
    match toks with
    | ⟨.lbrace, _, start, _⟩ :: rest =>
        parseSubgraphBody fuel src none start rest
    | ⟨.ident, "subgraph", start, _⟩ :: ⟨.ident, sid, _, _⟩ ::
        ⟨.lbrace, _, _, _⟩ :: rest =>
        parseSubgraphBody fuel src (some sid) start rest
    | ⟨.ident, "subgraph", start, _⟩ :: ⟨.lbrace, _, _, _⟩ :: rest =>
        parseSubgraphBody fuel src none start rest
    | ⟨.ident, kw, start, _⟩ :: (⟨.lbrack, _, _, _⟩ :: _ : List Tok) =>
        if kw = "graph" ∨ kw = "node" ∨ kw = "edge" then
          match parseAttrList fuel (toks.drop 1) with
          | .error e => .error e
          | .ok (attrs, stop, rest2) =>
              .ok ([⟨"attr_stmt", some kw, attrs,
                     (lineOf src start, lineOf src stop), none⟩], rest2)
        else parseNodeOrEdge fuel src toks
    | ⟨.ident, key, start, _⟩ :: ⟨.eqSign, _, _, _⟩ ::
        ⟨.ident, v, _, vstop⟩ :: rest =>
        .ok ([⟨"id_eq", some key, [],
               (lineOf src start, lineOf src vstop), some v⟩], rest)
    | ⟨.ident, _, _, _⟩ :: _ => parseNodeOrEdge fuel src toks
    | _ => .error "expected statement"

/-- Body of a subgraph after its `{`: the statement list and closing `}`.
The subgraph chunk is emitted before its children, as in the source walk. -/
def parseSubgraphBody (fuel : Nat) (src : List Char) (sid : Option String)
    (start : Nat) (toks : List Tok) :
    Except String (List Chunk × List Tok) :=
  match fuel with
  | 0 => .error "parser fuel exhausted"
  | fuel + 1 =>
    match parseStmtList fuel src toks [] with
    | .error e => .error e
    | .ok (children, rest) =>
        match rest with
        | ⟨.rbrace, _, _, stop⟩ :: rest2 =>
            .ok ((⟨"subgraph", sid, [],
                   (lineOf src start, lineOf src stop), none⟩ : Chunk)
                  :: children, rest2)
        | _ => .error "expected closing brace"

/-- Statement list: statements with optional `;` separators, stopping before
a closing brace or the end of input. -/
def parseStmtList (fuel : Nat) (src : List Char) (toks : List Tok)
    (acc : List Chunk) : Except String (List Chunk × List Tok) :=
  match fuel with
  | 0 => .error "parser fuel exhausted"
  | fuel + 1 =>
    match toks with
    | [] => .ok (acc, [])
    | ⟨.rbrace, _, _, _⟩ :: _ => .ok (acc, toks)
    | ⟨.semi, _, _, _⟩ :: rest => parseStmtList fuel src rest acc
    | _ =>
        match parseStmt fuel src toks with
        | .error e => .error e
        | .ok (cs, rest) => parseStmtList fuel src rest (acc ++ cs)

end

/-- Modelled from the spec: `(di)?graph [id]? { stmt_list }` with nothing
after the closing brace, as `parse_dot_to_chunks` requires a complete
`dotfile`. -/
def parseDotfile (fuel : Nat) (src : List Char) (toks : List Tok) :
    Except String (List Chunk) :=
  let afterKw : Except String (List Tok) :=
    match toks with
    | ⟨.ident, "digraph", _, _⟩ :: rest => .ok rest
    | ⟨.ident, "graph", _, _⟩ :: rest => .ok rest
    | _ => .error "expected graph or digraph"
  match afterKw with
  | .error e => .error e
  | .ok rest =>
      let afterName : Except String (List Tok) :=
        match rest with
        | ⟨.lbrace, _, _, _⟩ :: rest2 => .ok rest2
        | ⟨.ident, _, _, _⟩ :: ⟨.lbrace, _, _, _⟩ :: rest2 => .ok rest2
        | _ => .error "expected graph body"
      match afterName with
      | .error e => .error e
      | .ok body =>
          match parseStmtList fuel src body [] with
          | .error e => .error e
          | .ok (chunks, rest2) =>
              match rest2 with
              | [⟨.rbrace, _, _, _⟩] => .ok chunks
              | _ => .error "expected closing brace at end of input"

/-- Source `parse_dot_to_chunks` (dot_chunks/parser.rs lines 153–315); the grammar
side is modelled from the spec since `dot.pest` is not among the sources. -/
def parse_dot_to_chunks (dot : String) : Except String (List Chunk) :=
  let src := dot.toList
  match tokenize (src.length + 1) src 0 with
  | .error e => .error e
  | .ok toks => parseDotfile (4 * toks.length + 16) src toks

/-- Plain `Except.isOk` as a plain definition. -/
def exceptOk {ε α : Type} : Except ε α → Bool
  | .ok _ => true
  | .error _ => false

end GraphDelta

namespace Commands

/-- The `Chunk` as used by `src/crates/graph-delta/src/commands.rs`: attributes
are an optional raw string. -/
structure Chunk where
  kind : String
  id : Option String
  attrs : Option String
  range : Nat × Nat
  extra : Option String
deriving DecidableEq, Repr

/-- The `DotCommand` tagged union (commands.rs lines 8–73). -/
inductive DotCommand where
  | createNode (id : String) (attrs : Option String) (parent : Option String)
  | updateNode (id : String) (attrs : Option String)
  | deleteNode (id : String)
  | createEdge (src dst : String) (attrs : Option String)
      (parent : Option String)
  | updateEdge (src dst : String) (attrs : Option String)
  | deleteEdge (src dst : String)
  | createSubgraph (id : Option String) (parent : Option String)
  | deleteSubgraph (id : String)
  | setGraphAttr (key value : String)
  | setNodeDefault (attrs : String)
  | setEdgeDefault (attrs : String)
  | deleteAttr (key : String)
deriving DecidableEq, Repr

/-- Model of `Iterator::position`: index of the first element satisfying `p`. -/
def position {α : Type} (p : α → Bool) : List α → Option Nat
  | [] => none
  | a :: l => if p a then some 0 else (position p l).map (· + 1)

/-- Model of `Iterator::rposition` / `max` of the matching indices: index of the last
element satisfying `p`. -/
def rposition {α : Type} (p : α → Bool) (l : List α) : Option Nat :=
  (position p l.reverse).map fun i => l.length - 1 - i

/-- Model of `Vec::insert` at an index that is always in range where used. -/
def insertIdx {α : Type} : Nat → α → List α → List α
  | 0, a, l => a :: l
  | _ + 1, _, [] => []
  | n + 1, a, b :: l => b :: insertIdx n a l

/-- Model of `iter_mut().find` followed by a mutation of the found element:
`none` when nothing matches. -/
def modifyFirst {α : Type} (p : α → Bool) (f : α → α) : List α → Option (List α)
  | [] => none
  | a :: l => if p a then some (f a :: l) else (modifyFirst p f l).map (a :: ·)

/-- In-range indexing `chunks[i]` (the out-of-range default is unreachable
where this is used). -/
def getChunk (chunks : List Chunk) (i : Nat) : Chunk :=
  (chunks.get? i).getD ⟨"", none, none, (0, 0), none⟩

def isNodeWith (nid : String) (c : Chunk) : Bool :=
  c.kind == "node" && c.id == some nid

def isEdgeWith (src dst : String) (c : Chunk) : Bool :=
  c.kind == "edge" && c.id == some src && c.extra == some dst

def isSubgraphWith (sid : String) (c : Chunk) : Bool :=
  c.kind == "subgraph" && c.id == some sid

/-- Insertion point and synthesized line for a parent-relative create
(shared by the `CreateNode` and `CreateEdge` arms): the last chunk strictly
inside the parent's range, or the parent itself when there is none. -/
def parentInsertion (chunks : List Chunk) (ppos : Nat) : Nat × Nat :=
  let prange := (getChunk chunks ppos).range
  let lastChild :=
    (rposition
      (fun c => decide (prange.1 < c.range.1 ∧ c.range.2 < prange.2))
      chunks).getD ppos
  let line :=
    if lastChild = ppos then prange.1 + 1
    else (getChunk chunks lastChild).range.2 + 1
  (lastChild + 1, line)

/-- The synthesized line for `UpdateEdge`'s create fallback and for top-level
`CreateSubgraph`: one past the last chunk's end line, or 1 on an empty list. -/
def appendLine (chunks : List Chunk) : Nat :=
  match chunks.getLast? with
  | none => 1
  | some c => c.range.2 + 1

/-- Source `apply_command` (commands.rs lines 82–445), in state-passing form: the
pair of the final chunk list and the error, mirroring the in-place mutation
of the Rust `Vec` plus the `Result`. -/
def apply_command (chunks : List Chunk) (command : DotCommand) :
    List Chunk × Option String :=
  match command with
  | .createNode nid attrs parent =>
      if chunks.any (isNodeWith nid) then
        (chunks, some ("Node '" ++ nid ++ "' already exists"))
      else
        match parent with
        | some pname =>
            match position (isSubgraphWith pname) chunks with
            | none =>
                (chunks,
                 some ("Parent subgraph '" ++ pname ++ "' not found"))
            | some ppos =>
                let (ipos, line) := parentInsertion chunks ppos
                (insertIdx ipos
                  ⟨"node", some nid, attrs, (line, line), none⟩ chunks, none)
        | none =>
            let ipos :=
              ((rposition (fun c => c.kind == "node") chunks).map
                (· + 1)).getD chunks.length
            let line :=
              if 0 < ipos then (getChunk chunks (ipos - 1)).range.2 + 1 else 1
            (insertIdx ipos
              ⟨"node", some nid, attrs, (line, line), none⟩ chunks, none)
  | .updateNode nid attrs =>
      match
        modifyFirst (isNodeWith nid)
          (fun c =>
            match attrs with
            | some a => { c with attrs := some a }
            | none => c) chunks
      with
      | some cs => (cs, none)
      | none => (chunks, some ("Node '" ++ nid ++ "' not found"))
  | .deleteNode nid =>
      match position (isNodeWith nid) chunks with
      | none => (chunks, some ("Node '" ++ nid ++ "' not found"))
      | some p => (chunks.eraseIdx p, none)
  | .createEdge src dst attrs parent =>
      if chunks.any (isEdgeWith src dst) then
        (chunks,
         some ("Edge '" ++ src ++ "' -> '" ++ dst ++ "' already exists"))
      else
        match parent with
        | some pname =>
            match position (isSubgraphWith pname) chunks with
            | none =>
                (chunks,
                 some ("Parent subgraph '" ++ pname ++ "' not found"))
            | some ppos =>
                let (ipos, line) := parentInsertion chunks ppos
                (insertIdx ipos
                  ⟨"edge", some src, attrs, (line, line), some dst⟩ chunks,
                 none)
        | none =>
            let ipos :=
              ((rposition (fun c => c.kind == "edge") chunks).map
                (· + 1)).getD chunks.length
            let line :=
              if 0 < ipos then (getChunk chunks (ipos - 1)).range.2 + 1 else 1
            (insertIdx ipos
              ⟨"edge", some src, attrs, (line, line), some dst⟩ chunks, none)
  | .updateEdge src dst attrs =>
      match
        modifyFirst (isEdgeWith src dst)
          (fun c =>
            match attrs with
            | some a => { c with attrs := some a }
            | none => c) chunks
      with
      | some cs => (cs, none)
      | none =>
          let line := appendLine chunks
          (chunks ++ [⟨"edge", some src, attrs, (line, line), some dst⟩],
           none)
  | .deleteEdge src dst =>
      match position (isEdgeWith src dst) chunks with
      | none =>
          (chunks, some ("Edge '" ++ src ++ "' -> '" ++ dst ++ "' not found"))
      | some p => (chunks.eraseIdx p, none)
  | .createSubgraph id parent =>
      if (match id with
          | some i => chunks.any (isSubgraphWith i)
          | none => false) then
        (chunks, some ("Subgraph '" ++ id.getD "" ++ "' already exists"))
      else
        match parent with
        | some pname =>
            match position (isSubgraphWith pname) chunks with
            | none =>
                (chunks,
                 some ("Parent subgraph '" ++ pname ++ "' not found"))
            | some ppos =>
                let pr := (getChunk chunks ppos).range
                (insertIdx (ppos + 1)
                  ⟨"subgraph", id, none, (pr.1 + 1, pr.2 - 1), none⟩ chunks,
                 none)
        | none =>
            let line := appendLine chunks
            (insertIdx chunks.length
              ⟨"subgraph", id, none, (line, line + 10), none⟩ chunks, none)
  | .deleteSubgraph sid =>
      match position (isSubgraphWith sid) chunks with
      | none => (chunks, some ("Subgraph '" ++ sid ++ "' not found"))
      | some p =>
          let r := (getChunk chunks p).range
          (chunks.filter
            (fun c => !(decide (r.1 ≤ c.range.1 ∧ c.range.2 ≤ r.2))), none)
  | .setGraphAttr key value =>
      match
        modifyFirst (fun c => c.kind == "id_eq" && c.id == some key)
          (fun c => { c with attrs := some value }) chunks
      with
      | some cs => (cs, none)
      | none =>
          (⟨"id_eq", some key, some value, (1, 1), none⟩ :: chunks, none)
  | .setNodeDefault attrs =>
      match
        modifyFirst (fun c => c.kind == "attr_stmt" && c.id == some "node")
          (fun c => { c with attrs := some attrs }) chunks
      with
      | some cs => (cs, none)
      | none =>
          let ipos :=
            ((position (fun c => c.kind == "attr_stmt") chunks).map
              (· + 1)).getD 0
          (insertIdx ipos
            ⟨"attr_stmt", some "node", some attrs, (1, 1), none⟩ chunks, none)
  | .setEdgeDefault attrs =>
      match
        modifyFirst (fun c => c.kind == "attr_stmt" && c.id == some "edge")
          (fun c => { c with attrs := some attrs }) chunks
      with
      | some cs => (cs, none)
      | none =>
          let ipos :=
            ((position (fun c => c.kind == "attr_stmt") chunks).map
              (· + 1)).getD 0
          (insertIdx ipos
            ⟨"attr_stmt", some "edge", some attrs, (1, 1), none⟩ chunks, none)
  | .deleteAttr key =>
      match position (fun c => c.kind == "id_eq" && c.id == some key) chunks
      with
      | none => (chunks, some ("Attribute '" ++ key ++ "' not found"))
      | some p => (chunks.eraseIdx p, none)

end Commands

namespace Dsl

open GraphDelta

/-- DSL command AST (`src/crates/graph-delta/src/dsl/ast.rs`). -/
inductive NodeCmd where
  | add (id : String) (attrs : List (String × String))
  | update (id : String) (attrs : List (String × String))
  | delete (id : String)
deriving DecidableEq, Repr

inductive EdgeCmd where
  | add (src dst : String) (attrs : List (String × String))
  | update (src dst : String) (attrs : List (String × String))
  | delete (src dst : String)
deriving DecidableEq, Repr

inductive ClusterCmd where
  | add (id : String) (attrs : List (String × String))
  | update (id : String) (attrs : List (String × String))
  | delete (id : String)
  | move (node cluster : String)
deriving DecidableEq, Repr

inductive GlobalCmd where
  | set (attrs : List (String × String))
  | nodeDefaults (attrs : List (String × String))
  | edgeDefaults (attrs : List (String × String))
deriving DecidableEq, Repr

inductive RankCmd where
  | same (nodes : List String)
  | min (nodes : List String)
  | max (nodes : List String)
deriving DecidableEq, Repr

inductive DslCommand where
  | node (c : NodeCmd)
  | edge (c : EdgeCmd)
  | cluster (c : ClusterCmd)
  | global (c : GlobalCmd)
  | rank (c : RankCmd)
deriving DecidableEq, Repr

/-- Model of `iter_mut().find` followed by a mutation, leaving the list unchanged when
nothing matches (the interpreter's `if let Some(x) = find` pattern). -/
def modifyFirstD {α : Type} (p : α → Bool) (f : α → α) : List α → List α
  | [] => []
  | a :: l => if p a then f a :: l else a :: modifyFirstD p f l

/-- The rank-list rewrite of a rename: split on `,`, replace elements equal
to the old id, rejoin. -/
def rewriteNodesList (old new : String) (s : String) : String :=
  String.intercalate ","
    ((GraphDelta.strSplitChar ',' s).map fun x => if x = old then new else x)

/-- Rename pass 1 of `NodeCmd::Update`: set the found node chunk's id. -/
def renameNodeId (newId : String) (c : Chunk) : Chunk :=
  { c with id := some newId }

/-- Rename pass 2: rewrite both endpoints of every edge chunk. -/
def renameEdgeRefs (old new : String) (c : Chunk) : Chunk :=
  if c.kind == "edge" then
    { c with
        id := if c.id == some old then some new else c.id,
        extra := if c.extra == some old then some new else c.extra }
  else c

/-- Rename pass 3: rewrite the node list of every rank chunk. -/
def renameRankRefs (old new : String) (c : Chunk) : Chunk :=
  if c.kind == "rank" then
    { c with attrs :=
        (GraphDelta.modifyA c.attrs "nodes" (rewriteNodesList old new)) }
  else c

/-- The attribute merge of `NodeCmd::Update`: extend the node's map with the
remaining update attributes (right-biased). -/
def mergeAttrs (r : List (String × String)) (c : Chunk) : Chunk :=
  { c with attrs := GraphDelta.extendA c.attrs r }

/-- Source `apply_node` (dsl/interpreter.rs lines 18–83). -/
def apply_node (chunks : List Chunk) (cmd : NodeCmd) : List Chunk :=
  match cmd with
  | .add id attrs =>
      chunks ++ [⟨"node", some id, attrs, (0, 0), none⟩]
  | .update id attrs =>
      let newIdOpt := lookupA attrs "id"
      let rest := eraseA attrs "id"
      let step :=
        match newIdOpt with
        | some newId =>
            let c1 :=
              modifyFirstD
                (fun (c : Chunk) => c.kind == "node" && c.id == some id)
                (renameNodeId newId) chunks
            let c2 := c1.map (renameEdgeRefs id newId)
            let c3 := c2.map (renameRankRefs id newId)
            (c3, newId)
        | none => (chunks, id)
      if rest.isEmpty then step.1
      else
        modifyFirstD (fun c => c.kind == "node" && c.id == some step.2)
          (mergeAttrs rest) step.1
  | .delete id =>
      let c1 := chunks.filter fun c =>
        !(c.kind == "node" && c.id == some id)
      c1.filter fun c =>
        !(c.kind == "edge" && (c.id == some id || c.extra == some id))

/-- Source `apply_edge` (dsl/interpreter.rs lines 86–114). -/
def apply_edge (chunks : List Chunk) (cmd : EdgeCmd) : List Chunk :=
  match cmd with
  | .add src dst attrs =>
      chunks ++ [⟨"edge", some src, attrs, (0, 0), some dst⟩]
  | .update src dst attrs =>
      modifyFirstD
        (fun c => c.kind == "edge" && c.id == some src && c.extra == some dst)
        (fun c => { c with attrs := extendA c.attrs attrs }) chunks
  | .delete src dst =>
      chunks.filter fun c =>
        !(c.kind == "edge" && c.id == some src && c.extra == some dst)

/-- The `cluster_` prefix normalization applied before every cluster
operation. -/
def normalizeCluster (id : String) : String :=
  if String.startsWith id "cluster_" then id else "cluster_" ++ id

/-- Source `apply_cluster` (dsl/interpreter.rs lines 117–163); `Move` is an
unimplemented stub. -/
def apply_cluster (chunks : List Chunk) (cmd : ClusterCmd) : List Chunk :=
  match cmd with
  | .add id attrs =>
      chunks ++ [⟨"subgraph", some (normalizeCluster id), attrs, (0, 0), none⟩]
  | .update id attrs =>
      modifyFirstD
        (fun c =>
          c.kind == "subgraph" && c.id == some (normalizeCluster id))
        (fun c => { c with attrs := extendA c.attrs attrs }) chunks
  | .delete id =>
      chunks.filter fun c =>
        !(c.kind == "subgraph" && c.id == some (normalizeCluster id))
  | .move _ _ => chunks

/-- Source `apply_global` (dsl/interpreter.rs lines 166–186). -/
def apply_global (chunks : List Chunk) (cmd : GlobalCmd) : List Chunk :=
  let pair :=
    match cmd with
    | .set attrs => ("graph", attrs)
    | .nodeDefaults attrs => ("node", attrs)
    | .edgeDefaults attrs => ("edge", attrs)
  let found := chunks.any fun c =>
    c.kind == "attr_stmt" && c.id == some pair.1
  if found then
    modifyFirstD (fun c => c.kind == "attr_stmt" && c.id == some pair.1)
      (fun c => { c with attrs := extendA c.attrs pair.2 }) chunks
  else
    chunks ++ [⟨"attr_stmt", some pair.1, pair.2, (0, 0), none⟩]

/-- Source `apply_rank` (dsl/interpreter.rs lines 189–206). -/
def apply_rank (chunks : List Chunk) (cmd : RankCmd) : List Chunk :=
  let pair :=
    match cmd with
    | .same nodes => ("same", nodes)
    | .min nodes => ("min", nodes)
    | .max nodes => ("max", nodes)
  chunks ++
    [⟨"rank", some pair.1, [("nodes", String.intercalate "," pair.2)],
      (0, 0), none⟩]

/-- Source `apply_commands` (dsl/interpreter.rs lines 5–15): fold every command into
the chunk list; the function is total and returns no error. -/
def apply_commands (chunks : List Chunk) (cmds : List DslCommand) :
    List Chunk :=
  cmds.foldl
    (fun acc cmd =>
      match cmd with
      | .node n => apply_node acc n
      | .edge e => apply_edge acc e
      | .cluster c => apply_cluster acc c
      | .global g => apply_global acc g
      | .rank r => apply_rank acc r)
    chunks

end Dsl

/-! Spec-side definitions used to state claims, and the concrete inputs of
the counterexamples and failing-input evaluations. -/

namespace SpecSide

/-- Occurrences of a character in a character list. -/
def countCh (c : Char) (l : List Char) : Nat :=
  (l.filter fun x => x = c).length

/-- The escaping the specification describes for quoted attribute values:
backslash-escape `\`, `"`, newline and carriage return. -/
def specEscapeC8 : List Char → List Char
  | [] => []
  | c :: rest =>
      if c = '\\' then '\\' :: '\\' :: specEscapeC8 rest
      else if c = '"' then '\\' :: '"' :: specEscapeC8 rest
      else if c = '\n' then '\\' :: 'n' :: specEscapeC8 rest
      else if c = '\r' then '\\' :: 'r' :: specEscapeC8 rest
      else c :: specEscapeC8 rest

/-- Trim surrounding whitespace (for reading keys out of a raw attribute
string when stating the C3 claim). -/
def specTrim (s : String) : String :=
  String.mk
    (((s.toList.dropWhile Char.isWhitespace).reverse.dropWhile
        Char.isWhitespace).reverse)

/-- The keys of a raw `k=v, k=v` attribute string, for stating what the
claim's attribute-map reading of `UpdateNode` predicts. -/
def specAttrKeys (s : String) : List String :=
  (GraphDelta.strSplitChar ',' s).map fun kv =>
    specTrim ((GraphDelta.strSplitChar '=' kv).headD "")

/-- The per-chunk transformation the C9 rename claim describes: the node
`X` is renamed to `Y` and receives the remaining attributes right-biased;
every edge endpoint equal to `X` becomes `Y`; every rank list has `X`
replaced by `Y`. -/
def c9step (X Y : String) (r : List (String × String))
    (c : GraphDelta.Chunk) : GraphDelta.Chunk :=
  if c.kind == "node" && c.id == some X then
    { c with id := some Y, attrs := GraphDelta.extendA c.attrs r }
  else if c.kind == "edge" then
    { c with
        id := if c.id == some X then some Y else c.id,
        extra := if c.extra == some X then some Y else c.extra }
  else if c.kind == "rank" then
    { c with
        attrs := GraphDelta.modifyA c.attrs "nodes"
          (Dsl.rewriteNodesList X Y) }
  else c

/-- C1 failing input: a valid DOT text with one subgraph. -/
def c1Input : String :=
  "digraph G \x7b\n    subgraph cluster_S \x7b\n        A;\n    \x7d\n    B;\n\x7d"

/-- The chunks `parse_dot_to_chunks` extracts from `c1Input`. -/
def c1Chunks : List GraphDelta.Chunk :=
  [⟨"subgraph", some "cluster_S", [], (2, 4), none⟩,
   ⟨"node", some "A", [], (3, 3), none⟩,
   ⟨"node", some "B", [], (5, 5), none⟩]

/-- C2 failing input: one subgraph followed by a later chunk, forcing one
pop of the serializer's stack. -/
def c2Chunks : List GraphDelta.Chunk :=
  [⟨"subgraph", some "S", [], (1, 2), none⟩,
   ⟨"node", some "A", [], (3, 3), none⟩]

/-- C3 counterexample state: one node whose raw attribute string holds the
keys `a` and `b`. -/
def c3Node : Commands.Chunk :=
  ⟨"node", some "A", some "a=1, b=2", (1, 1), none⟩

/-- C5 counterexample state: a subgraph spanning lines 2–5, a node sharing
its start line, and a node outside. -/
def c5Sub : Commands.Chunk := ⟨"subgraph", some "S", none, (2, 5), none⟩
def c5NodeA : Commands.Chunk := ⟨"node", some "A", none, (2, 2), none⟩
def c5NodeB : Commands.Chunk := ⟨"node", some "B", none, (6, 6), none⟩

/-- C6 counterexample: the chunk parsed from `digraph G { A; }`. -/
def c6NodeA : GraphDelta.Chunk := ⟨"node", some "A", [], (2, 2), none⟩

/-- C9 counterexample state: a node `Y` precedes the node `X` being renamed
to `Y`. -/
def c9NodeY : GraphDelta.Chunk := ⟨"node", some "Y", [], (1, 1), none⟩
def c9NodeX : GraphDelta.Chunk := ⟨"node", some "X", [("o", "w")], (2, 2), none⟩

/-- C10 counterexample state: an edge `A -> B` with no node chunk at all. -/
def c10EdgeAB : GraphDelta.Chunk := ⟨"edge", some "A", [], (1, 1), some "B"⟩

end SpecSide

/-! Helper lemmas. -/

section Lemmas

theorem modifyFirst_append {α : Type} (p : α → Bool) (f : α → α)
    (l₁ l₂ : List α) (c : α) (h₁ : ∀ x ∈ l₁, p x = false) (hc : p c = true) :
    Commands.modifyFirst p f (l₁ ++ c :: l₂) = some (l₁ ++ f c :: l₂) := by
  induction l₁ with
  | nil => simp [Commands.modifyFirst, hc]
  | cons a l ih =>
      have ha : p a = false := h₁ a (by simp)
      have ih' := ih fun x hx => h₁ x (by simp [hx])
      simp [Commands.modifyFirst, ha, ih']

theorem modifyFirst_eq_none {α : Type} (p : α → Bool) (f : α → α)
    (l : List α) (h : ∀ x ∈ l, p x = false) :
    Commands.modifyFirst p f l = none := by
  induction l with
  | nil => rfl
  | cons a l ih =>
      have ha : p a = false := h a (by simp)
      have ih' := ih fun x hx => h x (by simp [hx])
      simp [Commands.modifyFirst, ha, ih']

theorem modifyFirstD_append {α : Type} (p : α → Bool) (f : α → α)
    (l₁ l₂ : List α) (c : α) (h₁ : ∀ x ∈ l₁, p x = false) (hc : p c = true) :
    Dsl.modifyFirstD p f (l₁ ++ c :: l₂) = l₁ ++ f c :: l₂ := by
  induction l₁ with
  | nil => simp [Dsl.modifyFirstD, hc]
  | cons a l ih =>
      have ha : p a = false := h₁ a (by simp)
      have ih' := ih fun x hx => h₁ x (by simp [hx])
      simp [Dsl.modifyFirstD, ha, ih']

theorem modifyFirstD_eq_self {α : Type} (p : α → Bool) (f : α → α)
    (l : List α) (h : ∀ x ∈ l, p x = false) :
    Dsl.modifyFirstD p f l = l := by
  induction l with
  | nil => rfl
  | cons a l ih =>
      have ha : p a = false := h a (by simp)
      have ih' := ih fun x hx => h x (by simp [hx])
      simp [Dsl.modifyFirstD, ha, ih']

theorem position_lt_length {α : Type} (p : α → Bool) (l : List α) (i : Nat)
    (h : Commands.position p l = some i) : i < l.length := by
  induction l generalizing i with
  | nil => simp [Commands.position] at h
  | cons a l ih =>
      by_cases hp : p a = true
      · simp [Commands.position, hp] at h
        simp only [List.length_cons]
        omega
      · simp [Commands.position, hp] at h
        obtain ⟨j, hj, rfl⟩ := h
        have := ih j hj
        simp only [List.length_cons]
        omega

theorem rposition_lt_length {α : Type} (p : α → Bool) (l : List α) (i : Nat)
    (h : Commands.rposition p l = some i) : i < l.length := by
  simp only [Commands.rposition, Option.map_eq_some'] at h
  obtain ⟨j, hj, rfl⟩ := h
  have := position_lt_length p l.reverse j hj
  simp at this
  omega

theorem position_none_find {α : Type} (p : α → Bool) (l : List α)
    (h : Commands.position p l = none) : l.find? p = none := by
  induction l with
  | nil => rfl
  | cons a l ih =>
      by_cases hp : p a = true
      · simp [Commands.position, hp] at h
      · simp [Commands.position, hp] at h
        simp [List.find?, hp, ih h]

theorem position_find {α : Type} (p : α → Bool) (l : List α) (i : Nat)
    (h : Commands.position p l = some i) :
    ∃ c, l.get? i = some c ∧ l.find? p = some c := by
  induction l generalizing i with
  | nil => simp [Commands.position] at h
  | cons a l ih =>
      by_cases hp : p a = true
      · simp [Commands.position, hp] at h
        subst h
        exact ⟨a, rfl, by simp [List.find?, hp]⟩
      · simp [Commands.position, hp] at h
        obtain ⟨j, hj, rfl⟩ := h
        obtain ⟨c, hg, hf⟩ := ih j hj
        exact ⟨c, by simpa using hg, by simp [List.find?, hp, hf]⟩

theorem mem_insertIdx_self {α : Type} (n : Nat) (a : α) (l : List α)
    (h : n ≤ l.length) : a ∈ Commands.insertIdx n a l := by
  induction l generalizing n with
  | nil =>
      have hn : n = 0 := Nat.le_zero.mp h
      subst hn
      simp [Commands.insertIdx]
  | cons b l ih =>
      cases n with
      | zero => simp [Commands.insertIdx]
      | succ n =>
          simp only [List.length_cons, Nat.succ_le_succ_iff] at h
          simp [Commands.insertIdx, ih n h]

theorem extendA_nil (m : List (String × String)) :
    GraphDelta.extendA m [] = m := rfl

theorem countCh_replaceQuote_backslash (cs : List Char) :
    SpecSide.countCh '\\' (GraphDelta.replaceQuote cs) =
      SpecSide.countCh '\\' cs + SpecSide.countCh '"' cs := by
  induction cs with
  | nil => rfl
  | cons c rest ih =>
      by_cases hq : c = '"'
      · subst hq
        simp [GraphDelta.replaceQuote, SpecSide.countCh, List.filter] at ih ⊢
        omega
      · by_cases hb : c = '\\'
        · subst hb
          simp [GraphDelta.replaceQuote, SpecSide.countCh, List.filter]
            at ih ⊢
          omega
        · simp [GraphDelta.replaceQuote, SpecSide.countCh, List.filter,
            hq, hb] at ih ⊢
          omega

theorem countCh_replaceQuote_quote (cs : List Char) :
    SpecSide.countCh '"' (GraphDelta.replaceQuote cs) =
      SpecSide.countCh '"' cs := by
  induction cs with
  | nil => rfl
  | cons c rest ih =>
      by_cases hq : c = '"'
      · subst hq
        simp [GraphDelta.replaceQuote, SpecSide.countCh, List.filter]
          at ih ⊢
        omega
      · simp [GraphDelta.replaceQuote, SpecSide.countCh, List.filter, hq]
          at ih ⊢
        omega

theorem intercalate_singleton (s x : String) :
    String.intercalate s [x] = x := by
  simp [String.intercalate, String.intercalate.go]

theorem position_eq_none_of_forall {α : Type} (p : α → Bool) (l : List α)
    (h : ∀ x ∈ l, p x = false) : Commands.position p l = none := by
  induction l with
  | nil => rfl
  | cons a l ih =>
      have ha : p a = false := h a (by simp)
      have ih' := ih fun x hx => h x (by simp [hx])
      simp [Commands.position, ha, ih']

theorem find_none_position {α : Type} (p : α → Bool) (l : List α)
    (h : l.find? p = none) : Commands.position p l = none := by
  apply position_eq_none_of_forall
  intro x hx
  have := List.find?_eq_none.mp h x hx
  simpa using this

theorem parentInsertion_fst_le (chunks : List Commands.Chunk) (ppos : Nat)
    (h : ppos < chunks.length) :
    (Commands.parentInsertion chunks ppos).1 ≤ chunks.length := by
  simp only [Commands.parentInsertion]
  cases hr : Commands.rposition
      (fun c =>
        decide (((Commands.getChunk chunks ppos).range.1 < c.range.1 ∧
          c.range.2 < (Commands.getChunk chunks ppos).range.2)))
      chunks with
  | none => simpa [hr] using h
  | some i =>
      have := rposition_lt_length _ _ _ hr
      simpa [hr] using this

theorem mergeAttrs_nil (c : GraphDelta.Chunk) : Dsl.mergeAttrs [] c = c := by
  cases c
  rfl

theorem c9_pY_preserved (X Y : String) (c : GraphDelta.Chunk)
    (h : (c.kind == "node" && c.id == some Y) = false) :
    (((Dsl.renameRankRefs X Y (Dsl.renameEdgeRefs X Y c)).kind == "node") &&
      ((Dsl.renameRankRefs X Y (Dsl.renameEdgeRefs X Y c)).id == some Y)) =
      false := by
  obtain ⟨kind, id, attrs, range, extra⟩ := c
  simp only [Dsl.renameEdgeRefs, Dsl.renameRankRefs] at *
  by_cases he : kind = "edge"
  · subst he
    simp
  · by_cases hr : kind = "rank"
    · subst hr
      simp
    · simpa [he, hr] using h

theorem c9_pY_middle (X Y : String) (cx : GraphDelta.Chunk)
    (h : (cx.kind == "node" && cx.id == some X) = true) :
    (((Dsl.renameRankRefs X Y
        (Dsl.renameEdgeRefs X Y (Dsl.renameNodeId Y cx))).kind == "node") &&
      ((Dsl.renameRankRefs X Y
        (Dsl.renameEdgeRefs X Y (Dsl.renameNodeId Y cx))).id == some Y)) =
      true := by
  obtain ⟨kind, id, attrs, range, extra⟩ := cx
  simp only [Bool.and_eq_true, beq_iff_eq] at h
  obtain ⟨hk, _⟩ := h
  subst hk
  simp [Dsl.renameNodeId, Dsl.renameEdgeRefs, Dsl.renameRankRefs]

theorem c9_pointwise (X Y : String) (r : List (String × String))
    (c : GraphDelta.Chunk)
    (h : (c.kind == "node" && c.id == some X) = false) :
    Dsl.renameRankRefs X Y (Dsl.renameEdgeRefs X Y c) =
      SpecSide.c9step X Y r c := by
  obtain ⟨kind, id, attrs, range, extra⟩ := c
  by_cases he : kind = "edge"
  · subst he
    simp [Dsl.renameEdgeRefs, Dsl.renameRankRefs, SpecSide.c9step]
  · by_cases hr : kind = "rank"
    · subst hr
      simp [Dsl.renameEdgeRefs, Dsl.renameRankRefs, SpecSide.c9step]
    · simp only [Dsl.renameEdgeRefs, Dsl.renameRankRefs, SpecSide.c9step]
      simp [he, hr, h]

theorem createEdge_success_mem (chunks cs' : List Commands.Chunk)
    (f t : String) (a : Option String) (p : Option String)
    (h : Commands.apply_command chunks (.createEdge f t a p) = (cs', none)) :
    ∃ ln, (⟨"edge", some f, a, (ln, ln), some t⟩ : Commands.Chunk) ∈ cs' := by
  simp only [Commands.apply_command] at h
  by_cases hd : chunks.any (Commands.isEdgeWith f t) = true
  · simp [hd] at h
  · simp only [Bool.not_eq_true] at hd
    simp only [hd, Bool.false_eq_true, if_false] at h
    cases p with
    | some pname =>
        cases hp : Commands.position (Commands.isSubgraphWith pname) chunks
          with
        | none => simp [hp] at h
        | some ppos =>
            simp only [hp] at h
            rcases hpi : Commands.parentInsertion chunks ppos with
              ⟨ipos, line⟩
            simp only [hpi] at h
            injection h with h1 _
            subst h1
            have hlt := position_lt_length _ _ _ hp
            have hle := parentInsertion_fst_le chunks ppos hlt
            rw [hpi] at hle
            exact ⟨line, mem_insertIdx_self _ _ _ hle⟩
    | none =>
        cases hr : Commands.rposition (fun c => c.kind == "edge") chunks with
        | none =>
            simp only [hr, Option.map_none', Option.getD_none] at h
            injection h with h1 _
            subst h1
            exact ⟨_, mem_insertIdx_self _ _ _ (Nat.le_refl _)⟩
        | some i =>
            simp only [hr, Option.map_some', Option.getD_some] at h
            injection h with h1 _
            subst h1
            have hlt := rposition_lt_length _ _ _ hr
            exact ⟨_, mem_insertIdx_self _ _ _ (by omega)⟩

theorem c9_middle (X Y : String) (r : List (String × String))
    (cx : GraphDelta.Chunk)
    (h : (cx.kind == "node" && cx.id == some X) = true) :
    Dsl.mergeAttrs r
        (Dsl.renameRankRefs X Y (Dsl.renameEdgeRefs X Y
          (Dsl.renameNodeId Y cx))) =
      SpecSide.c9step X Y r cx := by
  obtain ⟨kind, id, attrs, range, extra⟩ := cx
  simp only [Bool.and_eq_true, beq_iff_eq] at h
  obtain ⟨hk, hid⟩ := h
  subst hk
  simp [Dsl.renameNodeId, Dsl.renameEdgeRefs, Dsl.renameRankRefs,
    Dsl.mergeAttrs, SpecSide.c9step, hid]

end Lemmas

/-! Claim theorems. -/

/-- C3 counterexample: `UpdateNode` on node `A` whose attribute string holds
keys `a` and `b`, updated with a string holding `b` and `c`.  The claim
predicts a right-biased merge in which key `a` keeps its old value; the code
replaces the attribute string wholesale, so key `a` is gone from the
result. -/
theorem c3_counterexample :
    Commands.apply_command [SpecSide.c3Node]
        (.updateNode "A" (some "b=3, c=4")) =
      ([⟨"node", some "A", some "b=3, c=4", (1, 1), none⟩], none) ∧
    "a" ∈ SpecSide.specAttrKeys "a=1, b=2" ∧
    "a" ∉ SpecSide.specAttrKeys "b=3, c=4" := by
  refine ⟨rfl, by decide, by decide⟩

/-- C3 amended: `UpdateNode{id, attrs}` succeeds exactly when a Node chunk
with the id exists; on success with a supplied attribute string the first
matching node's attribute string is replaced wholesale (previous attributes
discarded); when no node matches it fails with the not-found error and the
list is unchanged. -/
theorem c3_update_replaces_wholesale :
    (∀ (l₁ l₂ : List Commands.Chunk) (c : Commands.Chunk) (nid a : String),
      (∀ x ∈ l₁, Commands.isNodeWith nid x = false) →
      Commands.isNodeWith nid c = true →
      Commands.apply_command (l₁ ++ c :: l₂) (.updateNode nid (some a)) =
        (l₁ ++ { c with attrs := some a } :: l₂, none)) ∧
    (∀ (chunks : List Commands.Chunk) (nid : String) (a : Option String),
      (∀ x ∈ chunks, Commands.isNodeWith nid x = false) →
      Commands.apply_command chunks (.updateNode nid a) =
        (chunks, some ("Node '" ++ nid ++ "' not found"))) := by
  constructor
  · intro l₁ l₂ c nid a h₁ hc
    simp only [Commands.apply_command]
    rw [modifyFirst_append _ _ _ _ _ h₁ hc]
  · intro chunks nid a h
    simp only [Commands.apply_command]
    rw [modifyFirst_eq_none _ _ _ h]

/-- C3 witness: the amended theorem applied at a concrete node list. -/
theorem c3_witness :
    Commands.apply_command [SpecSide.c3Node] (.updateNode "A" (some "x")) =
      ([⟨"node", some "A", some "x", (1, 1), none⟩], none) :=
  c3_update_replaces_wholesale.1 [] [] SpecSide.c3Node "A" "x"
    (by intro x hx; cases hx) (by decide)

/-- C4: `CreateEdge` fails with the already-exists error whenever a matching
edge chunk is present — in particular a second identical `CreateEdge` always
fails — while `UpdateEdge` never fails: it updates a matching edge in place,
and when none matches it appends a new edge chunk with the given endpoints
and attributes. -/
theorem c4_create_fails_update_upserts :
    (∀ (chunks : List Commands.Chunk) (f t : String)
       (a p : Option String) (c : Commands.Chunk),
      c ∈ chunks → Commands.isEdgeWith f t c = true →
      Commands.apply_command chunks (.createEdge f t a p) =
        (chunks,
         some ("Edge '" ++ f ++ "' -> '" ++ t ++ "' already exists"))) ∧
    (∀ (chunks cs' : List Commands.Chunk) (f t : String) (a p : Option String),
      Commands.apply_command chunks (.createEdge f t a p) = (cs', none) →
      ∀ (a' p' : Option String),
        Commands.apply_command cs' (.createEdge f t a' p') =
          (cs',
           some ("Edge '" ++ f ++ "' -> '" ++ t ++ "' already exists"))) ∧
    (∀ (chunks : List Commands.Chunk) (f t : String) (a : Option String),
      (Commands.apply_command chunks (.updateEdge f t a)).2 = none) ∧
    (∀ (chunks : List Commands.Chunk) (f t : String) (a : Option String),
      (∀ x ∈ chunks, Commands.isEdgeWith f t x = false) →
      Commands.apply_command chunks (.updateEdge f t a) =
        (chunks ++
          [⟨"edge", some f, a,
            (Commands.appendLine chunks, Commands.appendLine chunks),
            some t⟩], none)) := by
  refine ⟨?_, ?_, ?_, ?_⟩
  · intro chunks f t a p c hmem hc
    have hany : chunks.any (Commands.isEdgeWith f t) = true :=
      List.any_eq_true.mpr ⟨c, hmem, hc⟩
    simp [Commands.apply_command, hany]
  · intro chunks cs' f t a p h a' p'
    obtain ⟨ln, hmem⟩ := createEdge_success_mem chunks cs' f t a p h
    have hany : cs'.any (Commands.isEdgeWith f t) = true :=
      List.any_eq_true.mpr
        ⟨_, hmem, by simp [Commands.isEdgeWith]⟩
    simp [Commands.apply_command, hany]
  · intro chunks f t a
    simp only [Commands.apply_command]
    split <;> rfl
  · intro chunks f t a h
    simp only [Commands.apply_command]
    rw [modifyFirst_eq_none _ _ _ h]

/-- C4 witness: the theorem's parts applied at a one-edge list. -/
theorem c4_witness :
    Commands.apply_command [⟨"edge", some "A", none, (1, 1), some "B"⟩]
        (.createEdge "A" "B" none none) =
      ([⟨"edge", some "A", none, (1, 1), some "B"⟩],
       some "Edge 'A' -> 'B' already exists") ∧
    Commands.apply_command [SpecSide.c3Node] (.updateEdge "A" "B" none) =
      ([SpecSide.c3Node,
        ⟨"edge", some "A", none, (2, 2), some "B"⟩], none) :=
  ⟨c4_create_fails_update_upserts.1
      [⟨"edge", some "A", none, (1, 1), some "B"⟩] "A" "B" none none
      ⟨"edge", some "A", none, (1, 1), some "B"⟩ (by simp) (by decide),
   c4_create_fails_update_upserts.2.2.2 [SpecSide.c3Node] "A" "B" none
      (by decide)⟩

/-- C5 counterexample: a node sharing the subgraph's start line is not
strictly contained (`child.start > parent.start` fails), yet
`DeleteSubgraph` removes it, because the code's containment test is
non-strict. -/
theorem c5_counterexample :
    Commands.apply_command
        [SpecSide.c5Sub, SpecSide.c5NodeA, SpecSide.c5NodeB]
        (.deleteSubgraph "S") = ([SpecSide.c5NodeB], none) ∧
    ¬(SpecSide.c5Sub.range.1 < SpecSide.c5NodeA.range.1 ∧
      SpecSide.c5NodeA.range.2 < SpecSide.c5Sub.range.2) :=
  ⟨by decide, by decide⟩

/-- C5 amended: `DeleteSubgraph{id}` removes the first matching subgraph
chunk together with exactly those chunks satisfying the non-strict
containment `child.start ≥ parent.start ∧ child.end ≤ parent.end` (boundary
chunks included); every other chunk is kept.  When no subgraph matches it
fails with the not-found error and the list is unchanged. -/
theorem c5_delete_subgraph_nonstrict :
    (∀ (chunks : List Commands.Chunk) (sid : String) (sub : Commands.Chunk),
      chunks.find? (Commands.isSubgraphWith sid) = some sub →
      (Commands.apply_command chunks (.deleteSubgraph sid)).2 = none ∧
      ∀ c, c ∈ (Commands.apply_command chunks (.deleteSubgraph sid)).1 ↔
        c ∈ chunks ∧
          ¬(sub.range.1 ≤ c.range.1 ∧ c.range.2 ≤ sub.range.2)) ∧
    (∀ (chunks : List Commands.Chunk) (sid : String),
      chunks.find? (Commands.isSubgraphWith sid) = none →
      Commands.apply_command chunks (.deleteSubgraph sid) =
        (chunks, some ("Subgraph '" ++ sid ++ "' not found"))) := by
  constructor
  · intro chunks sid sub hfind
    cases hp : Commands.position (Commands.isSubgraphWith sid) chunks with
    | none =>
        rw [position_none_find _ _ hp] at hfind
        cases hfind
    | some i =>
        obtain ⟨c', hget, hfind'⟩ := position_find _ _ _ hp
        rw [hfind'] at hfind
        injection hfind with hsub
        have hgc : Commands.getChunk chunks i = sub := by
          rw [List.get?_eq_getElem?] at hget
          simp [Commands.getChunk, hget, hsub]
        constructor
        · simp [Commands.apply_command, hp]
        · intro c
          simp [Commands.apply_command, hp, hgc, List.mem_filter]
          intro _
          omega
  · intro chunks sid hfind
    have hp := find_none_position _ _ hfind
    simp [Commands.apply_command, hp]

/-- C5 witness: the amended theorem applied at the counterexample state. -/
theorem c5_witness :
    (Commands.apply_command
        [SpecSide.c5Sub, SpecSide.c5NodeA, SpecSide.c5NodeB]
        (.deleteSubgraph "S")).2 = none ∧
    (SpecSide.c5NodeA ∈
        (Commands.apply_command
          [SpecSide.c5Sub, SpecSide.c5NodeA, SpecSide.c5NodeB]
          (.deleteSubgraph "S")).1 ↔
      SpecSide.c5NodeA ∈
          [SpecSide.c5Sub, SpecSide.c5NodeA, SpecSide.c5NodeB] ∧
        ¬(SpecSide.c5Sub.range.1 ≤ SpecSide.c5NodeA.range.1 ∧
          SpecSide.c5NodeA.range.2 ≤ SpecSide.c5Sub.range.2)) :=
  ⟨(c5_delete_subgraph_nonstrict.1 _ "S" SpecSide.c5Sub (by decide)).1,
   (c5_delete_subgraph_nonstrict.1 _ "S" SpecSide.c5Sub (by decide)).2
      SpecSide.c5NodeA⟩

/-- C6 counterexample: starting from a parse of `digraph G { A; }`, one DSL
`NodeCmd::Add` of the same id is applied without any rejection, leaving two
Node chunks sharing the id `A` — the claimed uniqueness invariant does not
hold on reachable chunk lists. -/
theorem c6_counterexample :
    GraphDelta.parse_dot_to_chunks "digraph G \x7b\n    A;\n\x7d" =
      .ok [SpecSide.c6NodeA] ∧
    Dsl.apply_commands [SpecSide.c6NodeA] [.node (.add "A" [])] =
      [SpecSide.c6NodeA, ⟨"node", some "A", [], (0, 0), none⟩] ∧
    ((Dsl.apply_commands [SpecSide.c6NodeA] [.node (.add "A" [])]).filter
        (fun c => c.kind == "node" && c.id == some "A")).length = 2 :=
  ⟨rfl, rfl, rfl⟩

/-- C6 amended: only the JSON command layer enforces the uniqueness — its
`CreateNode` and `CreateEdge` fail without mutation whenever a matching
chunk already exists; the DSL `Add` commands and the parser perform no such
check. -/
theorem c6_command_layer_rejects_duplicates :
    (∀ (chunks : List Commands.Chunk) (nid : String) (a p : Option String)
       (c : Commands.Chunk),
      c ∈ chunks → Commands.isNodeWith nid c = true →
      Commands.apply_command chunks (.createNode nid a p) =
        (chunks, some ("Node '" ++ nid ++ "' already exists"))) ∧
    (∀ (chunks : List Commands.Chunk) (f t : String) (a p : Option String)
       (c : Commands.Chunk),
      c ∈ chunks → Commands.isEdgeWith f t c = true →
      (Commands.apply_command chunks (.createEdge f t a p)).2.isSome =
        true) := by
  constructor
  · intro chunks nid a p c hmem hc
    have hany : chunks.any (Commands.isNodeWith nid) = true :=
      List.any_eq_true.mpr ⟨c, hmem, hc⟩
    simp [Commands.apply_command, hany]
  · intro chunks f t a p c hmem hc
    have hany : chunks.any (Commands.isEdgeWith f t) = true :=
      List.any_eq_true.mpr ⟨c, hmem, hc⟩
    simp [Commands.apply_command, hany]

/-- C6 witness: the amended theorem applied at a one-node list. -/
theorem c6_witness :
    Commands.apply_command [⟨"node", some "A", none, (1, 1), none⟩]
        (.createNode "A" none none) =
      ([⟨"node", some "A", none, (1, 1), none⟩],
       some "Node 'A' already exists") :=
  c6_command_layer_rejects_duplicates.1
    [⟨"node", some "A", none, (1, 1), none⟩] "A" none none
    ⟨"node", some "A", none, (1, 1), none⟩ (by simp) (by decide)

/-- C7: `apply_command` is atomic per command — whenever it reports an
error, the chunk list it leaves behind is exactly the input list (every
error return happens before any insertion, update, or removal). -/
theorem c7_no_partial_mutation :
    ∀ (chunks : List Commands.Chunk) (cmd : Commands.DotCommand)
      (cs : List Commands.Chunk) (e : String),
      Commands.apply_command chunks cmd = (cs, some e) → cs = chunks := by
  intro chunks cmd cs e h
  cases cmd <;>
    simp only [Commands.apply_command] at h <;>
    (repeat' split at h) <;>
    (first
      | (injection h with h1 h2; exact h1.symm)
      | (injection h with h1 h2; cases h2))

/-- C7 witness: the theorem applied at a duplicate `CreateNode`, whose error
leaves the list untouched. -/
theorem c7_witness :
    ([SpecSide.c3Node] : List Commands.Chunk) = [SpecSide.c3Node] :=
  c7_no_partial_mutation [SpecSide.c3Node] (.createNode "A" none none)
    [SpecSide.c3Node] "Node 'A' already exists" (by decide)

/-- C8 counterexample: a value containing a backslash is quoted but the
backslash is NOT escaped, while the claim's escaping rule (escape `\`, `"`,
newline, carriage return) predicts a doubled backslash. -/
theorem c8_counterexample :
    GraphDelta.format_dot_attributes [("k", "a\\b")] = "k=\"a\\b\"" ∧
    "k=\"a\\b\"" ≠
      "k=\"" ++ String.mk (SpecSide.specEscapeC8 ("a\\b".toList)) ++ "\"" :=
  ⟨rfl, by decide⟩

/-- C8 amended: a non-HTML value that is empty or contains a
non-alphanumeric character is emitted in double quotes with ONLY the double
quote escaped: the rendered value adds exactly one backslash per original
double quote (pre-existing backslashes are kept as-is, newlines and carriage
returns pass through unescaped), and keeps every original quote. -/
theorem c8_quote_only_escaping (k v : String)
    (hhtml : ¬(GraphDelta.strStartsWith v '<' = true ∧
      GraphDelta.strEndsWith v '>' = true))
    (hq : (v.toList.any fun c => !c.isAlphanum) = true ∨
      v.toList.isEmpty = true) :
    GraphDelta.format_dot_attributes [(k, v)] =
      k ++ "=\"" ++ String.mk (GraphDelta.replaceQuote v.toList) ++ "\"" ∧
    SpecSide.countCh '\\' (GraphDelta.replaceQuote v.toList) =
      SpecSide.countCh '\\' v.toList + SpecSide.countCh '"' v.toList ∧
    SpecSide.countCh '"' (GraphDelta.replaceQuote v.toList) =
      SpecSide.countCh '"' v.toList := by
  refine ⟨?_, countCh_replaceQuote_backslash _, countCh_replaceQuote_quote _⟩
  have hb : (GraphDelta.strStartsWith v '<' &&
      GraphDelta.strEndsWith v '>') = false := by
    cases h1 : GraphDelta.strStartsWith v '<' <;>
      cases h2 : GraphDelta.strEndsWith v '>' <;> simp_all
  have hcond : ((v.toList.any fun c => !c.isAlphanum) ||
      v.toList.isEmpty) = true := by
    rcases hq with h | h
    · rw [h]
      rfl
    · rw [h, Bool.or_true]
  have hfmt : GraphDelta.format_dot_attributes [(k, v)] =
      GraphDelta.formatAttrPair k v := by
    simp only [GraphDelta.format_dot_attributes, List.map_cons,
      List.map_nil]
    exact intercalate_singleton _ _
  rw [hfmt]
  unfold GraphDelta.formatAttrPair
  rw [if_neg (by simp [hb]), if_pos hcond]

/-- C8 witness: the amended theorem at a value containing a space. -/
theorem c8_witness :
    GraphDelta.format_dot_attributes [("k", "a b")] =
      "k" ++ "=\"" ++
        String.mk (GraphDelta.replaceQuote ("a b".toList)) ++ "\"" ∧
    SpecSide.countCh '\\' (GraphDelta.replaceQuote ("a b".toList)) =
      SpecSide.countCh '\\' ("a b".toList) +
        SpecSide.countCh '"' ("a b".toList) ∧
    SpecSide.countCh '"' (GraphDelta.replaceQuote ("a b".toList)) =
      SpecSide.countCh '"' ("a b".toList) :=
  c8_quote_only_escaping "k" "a b" (by decide) (Or.inl (by decide))

/-- C9 counterexample: when a node with the target id `Y` already precedes
the renamed node `X`, the post-rename merge finds that pre-existing node
first and the remaining attributes are merged into it, not into the renamed
node as the claim states. -/
theorem c9_counterexample :
    Dsl.apply_commands [SpecSide.c9NodeY, SpecSide.c9NodeX]
        [.node (.update "X" [("id", "Y"), ("a", "1")])] =
      [⟨"node", some "Y", [("a", "1")], (1, 1), none⟩,
       ⟨"node", some "Y", [("o", "w")], (2, 2), none⟩] ∧
    [⟨"node", some "Y", [("a", "1")], (1, 1), none⟩,
     ⟨"node", some "Y", [("o", "w")], (2, 2), none⟩] ≠
      [SpecSide.c9NodeY,
       ⟨"node", some "Y", [("o", "w"), ("a", "1")], (2, 2), none⟩] :=
  ⟨rfl, by decide⟩

/-- C9 amended: provided the list holds exactly one Node chunk with id `X`
and none with id `Y`, a DSL node update carrying the reserved `id` key
renames that node, rewrites every edge endpoint and every rank list entry
equal to `X` to `Y`, and merges the remaining attributes right-biased into
the renamed node — the per-chunk transformation `c9step`. -/
theorem c9_rename_cascades (l₁ l₂ : List GraphDelta.Chunk)
    (cx : GraphDelta.Chunk) (X Y : String) (m : List (String × String))
    (hm : GraphDelta.lookupA m "id" = some Y)
    (hx : (cx.kind == "node" && cx.id == some X) = true)
    (hl₁ : ∀ c ∈ l₁, (c.kind == "node" && c.id == some X) = false)
    (hl₂ : ∀ c ∈ l₂, (c.kind == "node" && c.id == some X) = false)
    (hY : ∀ c ∈ l₁ ++ cx :: l₂,
      (c.kind == "node" && c.id == some Y) = false) :
    Dsl.apply_node (l₁ ++ cx :: l₂) (.update X m) =
      l₁.map (SpecSide.c9step X Y (GraphDelta.eraseA m "id")) ++
        SpecSide.c9step X Y (GraphDelta.eraseA m "id") cx ::
        l₂.map (SpecSide.c9step X Y (GraphDelta.eraseA m "id")) := by
  have hY₁ : ∀ c ∈ l₁, (c.kind == "node" && c.id == some Y) = false :=
    fun c hc => hY c (by simp [hc])
  simp only [Dsl.apply_node, hm]
  rw [modifyFirstD_append _ _ _ _ _ hl₁ hx]
  simp only [List.map_append, List.map_cons, List.map_map]
  by_cases hr : (GraphDelta.eraseA m "id").isEmpty = true
  · have hre : GraphDelta.eraseA m "id" = [] := by
      simpa using hr
    rw [if_pos hr, hre]
    have hmid := c9_middle X Y [] cx hx
    rw [mergeAttrs_nil] at hmid
    have e1 : l₁.map (Dsl.renameRankRefs X Y ∘ Dsl.renameEdgeRefs X Y) =
        l₁.map (SpecSide.c9step X Y []) :=
      List.map_congr_left fun c hc => c9_pointwise X Y [] c (hl₁ c hc)
    have e2 : l₂.map (Dsl.renameRankRefs X Y ∘ Dsl.renameEdgeRefs X Y) =
        l₂.map (SpecSide.c9step X Y []) :=
      List.map_congr_left fun c hc => c9_pointwise X Y [] c (hl₂ c hc)
    rw [e1, e2, hmid]
  · rw [if_neg hr]
    have hpre : ∀ x ∈ l₁.map
        (Dsl.renameRankRefs X Y ∘ Dsl.renameEdgeRefs X Y),
        (x.kind == "node" && x.id == some Y) = false := by
      intro x hx'
      obtain ⟨c, hc, rfl⟩ := List.mem_map.mp hx'
      exact c9_pY_preserved X Y c (hY₁ c hc)
    have hmid := c9_pY_middle X Y cx hx
    rw [modifyFirstD_append _ _ _ _ _ hpre hmid]
    have e1 : l₁.map (Dsl.renameRankRefs X Y ∘ Dsl.renameEdgeRefs X Y) =
        l₁.map (SpecSide.c9step X Y (GraphDelta.eraseA m "id")) :=
      List.map_congr_left fun c hc => c9_pointwise X Y _ c (hl₁ c hc)
    have e2 : l₂.map (Dsl.renameRankRefs X Y ∘ Dsl.renameEdgeRefs X Y) =
        l₂.map (SpecSide.c9step X Y (GraphDelta.eraseA m "id")) :=
      List.map_congr_left fun c hc => c9_pointwise X Y _ c (hl₂ c hc)
    rw [e1, e2, c9_middle X Y _ cx hx]

/-- C9 witness: the amended theorem at a node with one outgoing edge. -/
theorem c9_witness :
    Dsl.apply_node
        [⟨"node", some "X", [("o", "w")], (2, 2), none⟩,
         ⟨"edge", some "X", [], (3, 3), some "B"⟩]
        (.update "X" [("id", "Y"), ("a", "1")]) =
      List.map (SpecSide.c9step "X" "Y"
          (GraphDelta.eraseA [("id", "Y"), ("a", "1")] "id")) [] ++
        SpecSide.c9step "X" "Y"
          (GraphDelta.eraseA [("id", "Y"), ("a", "1")] "id")
          ⟨"node", some "X", [("o", "w")], (2, 2), none⟩ ::
        List.map (SpecSide.c9step "X" "Y"
          (GraphDelta.eraseA [("id", "Y"), ("a", "1")] "id"))
          [⟨"edge", some "X", [], (3, 3), some "B"⟩] :=
  c9_rename_cascades [] [⟨"edge", some "X", [], (3, 3), some "B"⟩]
    ⟨"node", some "X", [("o", "w")], (2, 2), none⟩ "X" "Y"
    [("id", "Y"), ("a", "1")] (by decide) (by decide)
    (by intro c hc; cases hc) (by decide) (by decide)

/-- C10 counterexample: a DSL node update whose target node does not exist
in the list but whose attribute map carries the reserved `id` key still
rewrites the edge chunk referencing the old id — not a silent no-op. -/
theorem c10_counterexample :
    Dsl.apply_commands [SpecSide.c10EdgeAB]
        [.node (.update "A" [("id", "C")])] =
      [⟨"edge", some "C", [], (1, 1), some "B"⟩] ∧
    (∀ c ∈ [SpecSide.c10EdgeAB],
      (c.kind == "node" && c.id == some "A") = false) ∧
    [⟨"edge", some "C", [], (1, 1), some "B"⟩] ≠ [SpecSide.c10EdgeAB] :=
  ⟨rfl, by decide, by decide⟩

/-- C10 amended: the DSL interpreter is total (its type reports no error),
and an `Update` whose target is absent is a silent no-op for edges, for
clusters, and for node updates whose attribute map lacks the reserved `id`
key; a node update carrying `id` still rewrites references (see the
counterexample). -/
theorem c10_missing_target_noop :
    (∀ (chunks : List GraphDelta.Chunk) (nid : String)
       (m : List (String × String)),
      GraphDelta.lookupA m "id" = none →
      (∀ c ∈ chunks, (c.kind == "node" && c.id == some nid) = false) →
      Dsl.apply_node chunks (.update nid m) = chunks) ∧
    (∀ (chunks : List GraphDelta.Chunk) (f t : String)
       (m : List (String × String)),
      (∀ c ∈ chunks,
        (c.kind == "edge" && c.id == some f && c.extra == some t) = false) →
      Dsl.apply_edge chunks (.update f t m) = chunks) ∧
    (∀ (chunks : List GraphDelta.Chunk) (cid : String)
       (m : List (String × String)),
      (∀ c ∈ chunks,
        (c.kind == "subgraph" &&
          c.id == some (Dsl.normalizeCluster cid)) = false) →
      Dsl.apply_cluster chunks (.update cid m) = chunks) := by
  refine ⟨?_, ?_, ?_⟩
  · intro chunks nid m hm h
    simp only [Dsl.apply_node, hm]
    by_cases hr : (GraphDelta.eraseA m "id").isEmpty
    · simp [hr]
    · simp only [hr, if_false]
      exact modifyFirstD_eq_self _ _ _ h
  · intro chunks f t m h
    simp only [Dsl.apply_edge]
    exact modifyFirstD_eq_self _ _ _ h
  · intro chunks cid m h
    simp only [Dsl.apply_cluster]
    exact modifyFirstD_eq_self _ _ _ h

/-- C10 witness: the amended theorem's edge part at a one-edge list. -/
theorem c10_witness :
    Dsl.apply_edge [SpecSide.c10EdgeAB] (.update "X" "Z" [("a", "1")]) =
      [SpecSide.c10EdgeAB] :=
  c10_missing_target_noop.2.1 [SpecSide.c10EdgeAB] "X" "Z" [("a", "1")]
    (by decide)

/-- C1: the claim says that for DOT text accepted by `parse_dot_to_chunks`
with no HTML-like labels, re-parsing the serialization succeeds with the same
multiset of tuples.  Evaluation of the code at `c1Input` (which contains one
subgraph): the parse succeeds, but the serializer emits two closing braces
when it closes the subgraph, so the serialized text is rejected by the very
same parser. -/
theorem c1_roundtrip_reparse_fails :
    GraphDelta.parse_dot_to_chunks SpecSide.c1Input = .ok SpecSide.c1Chunks ∧
    GraphDelta.exceptOk
      (GraphDelta.parse_dot_to_chunks
        (GraphDelta.chunks_to_complete_dot SpecSide.c1Chunks (some "G"))) =
      false :=
  ⟨rfl, rfl⟩

/-- C2: the claim says the serializer emits exactly one closing brace per
popped stack entry and per drained entry, yielding balanced braces.
Evaluation at `c2Chunks` (one subgraph, one later node): the pop emits two
closing braces, so the output has two opening braces but three closing
braces. -/
theorem c2_serializer_brace_imbalance :
    GraphDelta.chunks_to_dot_nested SpecSide.c2Chunks (some "G") =
      "digraph G \x7b\n    subgraph S \x7b\n\x7d\x7d\n    A;\n\x7d\n" ∧
    SpecSide.countCh '\x7b'
      (GraphDelta.chunks_to_dot_nested SpecSide.c2Chunks (some "G")).toList
      = 2 ∧
    SpecSide.countCh '\x7d'
      (GraphDelta.chunks_to_dot_nested SpecSide.c2Chunks (some "G")).toList
      = 3 :=
  ⟨rfl, rfl, rfl⟩
